import Mathlib

/-!
# go-micro: registry, discovery handler and method dispatch table

A shallow embedding of `registry/registry.go` and `service/service.go`.

Modelling conventions

* `map[string][]ServerItem` is a partial function `String → Option (List ServerItem)`;
  `m[k] = v` is `GoMap.set`, and a deleted key maps to `none`.
* `time.Time` and `time.Duration` are integers (nanoseconds); every `time.Now()` of one
  operation reads the same clock value `now`, passed as an argument.
* `net.DialTimeout` is a predicate `reachable` on addresses; `rand.Intn(n)` is
  `rnd % n` for an externally supplied natural number `rnd`.
* Go's `int` is a 64-bit two's complement integer, held in an `Int`: `index + 1` wraps
  from the largest `int` to the smallest (`addInt`), and `%` is Go's truncated remainder
  (`Int.tmod`), whose sign follows the dividend.
* A run-time panic is an explicit `fault` outcome. The mutex is held for the whole of
  every operation, so operations are atomic state transformers.
-/

namespace GoMicro

/-! ## registry/registry.go -/

/-- One registered address of a service (`ServerItem`). -/
structure ServerItem where
  Name : String
  Addr : String
  Time : Int
  deriving DecidableEq, Repr

/-- A Go map from service names to entry lists. -/
abbrev GoMap := String → Option (List ServerItem)

/-- The assignment `m[k] = v`. -/
def GoMap.set (m : GoMap) (k : String) (v : List ServerItem) : GoMap :=
  fun k' => if k' = k then some v else m k'

/-- The `Registry` struct without its mutex. -/
structure Registry where
  addr : String
  servers : GoMap
  timeout : Int
  mode : Int
  index : Int

/-- The constant `Random` of type `Mode`. -/
def Random : Int := 0

/-- The constant `RobinSelect` of type `Mode`. -/
def RobinSelect : Int := 1

/-- The constructor `NewRegistry`. -/
def NewRegistry (addr : String) (timeout : Int) : Registry :=
  { timeout := timeout, addr := addr, servers := fun _ => none, mode := RobinSelect, index := -1 }

/-- The `for _, server := range s` loop of `Register`. The loop variable `server` is a
copy of the slice element, so `server.Time = time.Now()` changes the copy only; what the
loop leaves behind is the flag `exist`. -/
def registerScan (s : List ServerItem) (addr : String) (now : Int) : Bool :=
  s.foldl
    (fun exist server =>
      if server.Addr = addr then
        let _server : ServerItem := { server with Time := now }
        true
      else exist)
    false

/-- The method `Registry.Register`, executed at clock value `now`. -/
def Register (r : Registry) (name addr : String) (now : Int) : Registry :=
  match r.servers name with
  | some s =>
    let exist := registerScan s addr now
    if !exist then
      let server : ServerItem := { Addr := addr, Name := name, Time := now }
      { r with servers := r.servers.set name (s ++ [server]) }
    else r
  | none =>
    let server : ServerItem := { Addr := addr, Name := name, Time := now }
    { r with servers := r.servers.set name ([] ++ [server]) }

/-- What a call of `Get` hands back: an address with a nil error, a non-nil error, or a
run-time panic. -/
inductive GetResult where
  | ok (addr : String)
  | error (msg : String)
  | fault
  deriving DecidableEq, Repr

/-- The largest `int` next to a list of `n` entries. Go's `int` has 64 bits and the
length of every slice fits in it, so for every list that is a Go slice this is
`2^63 - 1`; the lists of the model are unbounded, and a longer one takes its own length
as the bound. -/
def maxInt (n : Nat) : Int :=
  max (2 ^ 63 - 1) (n : Int)

/-- The sum `a + b` in two's complement `int` arithmetic with largest value `M`: the
result wraps into the range from `-(M + 1)` to `M`. -/
def addInt (M a b : Int) : Int :=
  (a + b + (M + 1)) % (2 * (M + 1)) - (M + 1)

/-- The method `Registry.Get`; `rnd` is the value drawn by the random source. The
registry returned is the state the call leaves behind. -/
def Get (r : Registry) (name : String) (mode : Int) (rnd : Nat) : Registry × GetResult :=
  match r.servers name with
  | none => (r, .error ("[Registry] No server data matching the name of " ++ name))
  | some items =>
    if mode = Random then
      -- rand.Intn panics when its argument is not positive
      if items.length = 0 then (r, .fault)
      else
        match items[rnd % items.length]? with
        | some item => (r, .ok item.Addr)
        | none => (r, .fault)
    else if mode = RobinSelect then
      -- integer division by zero panics before the assignment
      if items.length = 0 then (r, .fault)
      else
        let r1 : Registry :=
          { r with
            index := Int.tmod (addInt (maxInt items.length) r.index 1) (items.length : Int) }
        if r1.index < 0 then (r1, .fault)
        else
          match items[r1.index.toNat]? with
          | some item => (r1, .ok item.Addr)
          | none => (r1, .fault)
    else (r, .error "[Registry] No mode type meets the mode")

/-- The body of the goroutine of `heartbeat`: the survivors of one entry list. -/
def sweepItems (reachable : String → Bool) (now timeout : Int) (items : List ServerItem) :
    List ServerItem :=
  items.foldl
    (fun newItem item =>
      if !reachable item.Addr then newItem
      else if now > item.Time + timeout then newItem
      else newItem ++ [{ item with Time := now }])
    []

/-- The method `Registry.heartbeat`. Each key of the map is visited once and the body of
the loop reads and writes that key only, so the sweep is given key by key. -/
def heartbeat (reachable : String → Bool) (now : Int) (r : Registry) : Registry :=
  { r with
    servers := fun name =>
      match r.servers name with
      | none => none
      | some serverItems =>
        if serverItems.length = 0 then some serverItems
        else
          let newItem := sweepItems reachable now r.timeout serverItems
          if newItem.length = 0 then none else some newItem }

/-- The registry built by the test in `registry_test.go`, with the four registrations
made at the clock values `t1 .. t4`. -/
def testRegistry (t1 t2 t3 t4 : Int) : Registry :=
  Register
    (Register
      (Register
        (Register (NewRegistry "192.18.10.10:30001" 1000000000) "server1" "10.50.8.10" t1)
        "server1" "10.10.10.100" t2)
      "server1" "10.50.8.10" t3)
    "server2" "10.10.10.11" t4

/-- The JSON document written by `ExportJson`; `Data` is nil or an address string. -/
structure ResponseBody where
  Code : Int
  Message : String
  Data : Option String
  deriving DecidableEq, Repr

/-- The function `Success`: one more body written to the response writer `w`. -/
def Success (w : List ResponseBody) (message : String) (data : Option String) :
    List ResponseBody :=
  w ++ [{ Code := 200, Message := message, Data := data }]

/-- The function `Error`: one more body written to the response writer `w`. -/
def Error (w : List ResponseBody) (code : Int) (message : String) : List ResponseBody :=
  w ++ [{ Code := code, Message := message, Data := none }]

/-- The value of the decimal digits `ds`, most significant first. -/
def digitsValue (ds : List Char) : Nat :=
  ds.foldl (fun n ch => n * 10 + (ch.toNat - 48)) 0

/-- The library function `strconv.Atoi` for a 64-bit `int`: the number and whether the
error is non-nil. A syntax error gives `0`, a range error the nearest bound. -/
def Atoi (s : String) : Int × Bool :=
  let cs := s.toList
  let neg : Bool := cs.head? = some '-'
  let ds := if cs.head? = some '-' ∨ cs.head? = some '+' then cs.tail else cs
  if ds = [] ∨ !ds.all Char.isDigit then (0, true)
  else
    let un := digitsValue ds
    if !neg ∧ un ≥ 2 ^ 63 then (2 ^ 63 - 1, true)
    else if neg ∧ un > 2 ^ 63 then (-(2 ^ 63), true)
    else (if neg then -(un : Int) else (un : Int), false)

/-- A value decoded from JSON into `any`: a string or something else. -/
inductive JsonValue where
  | str (s : String)
  | other
  deriving DecidableEq, Repr

/-- What `ServeHTTP` reads of an `http.Request`: the method, the query parameters
(`q.Get` gives `""` for a missing one) and the body decoded into `map[string]any`
(`none` when decoding fails). -/
structure Request where
  Method : String
  query : String → String
  body : Option (String → Option JsonValue)

/-- What one call of `ServeHTTP` leaves behind: the registry, the bodies written to the
response writer in order, and whether the handler panicked. -/
structure Served where
  registry : Registry
  w : List ResponseBody
  faulted : Bool

/-- The method `Registry.ServeHTTP`, run at clock value `now` with random draw `rnd`. -/
def ServeHTTP (r : Registry) (req : Request) (now : Int) (rnd : Nat) : Served :=
  let w : List ResponseBody := []
  if req.Method = "GET" then
    let name := req.query "name"
    let mode := req.query "mode"
    if "" = req.query "name" then ⟨r, Error w 500 "Missing param [name]", false⟩
    else if "" = req.query "mode" then ⟨r, Error w 500 "Missing param [mode]", false⟩
    else
      let (number, err) := Atoi mode
      -- no return after this call of Error
      let w := if err then Error w 500 "mode must be a number" else w
      match Get r name number rnd with
      | (r1, .error msg) => ⟨r1, Error w 500 msg, false⟩
      | (r1, .ok server) => ⟨r1, Success w "success" (some server), false⟩
      | (r1, .fault) => ⟨r1, w, true⟩
  else if req.Method = "POST" then
    match req.body with
    | none => ⟨r, Error w 500 "Error decoding request body", false⟩
    | some body =>
      match body "name" with
      | none => ⟨r, Error w 500 "Missing param [name]", false⟩
      | some vname =>
        match body "addr" with
        | none => ⟨r, Error w 500 "Missing param [addr]", false⟩
        | some vaddr =>
          -- the type assertions `.(string)` panic on a value that is not a string
          match vname, vaddr with
          | .str name, .str addr => ⟨Register r name addr now, Success w "Register success" none, false⟩
          | _, _ => ⟨r, w, true⟩
  else ⟨r, Error w 500 "Invalid request method", false⟩

/-! ## service/service.go -/

/-- The struct `Message`. -/
structure Message where
  MethodName : String
  Args : Int
  Result : Int
  deriving DecidableEq, Repr

/-- A type as `reflect.Type` describes it: its name, which values are assignable to it
(`AssignableTo`, asked with the name of the value's type), and its element type when it
is a slice (`Elem`). -/
inductive GoType where
  | mk (name : String) (assignableFrom : String → Bool) (elem : Option GoType)

/-- The name of a type. -/
def GoType.name : GoType → String
  | .mk n _ _ => n

/-- Whether a value whose type is named `v` is assignable to the type. -/
def GoType.assignableFrom : GoType → String → Bool
  | .mk _ f _ => f

/-- The element type of a slice type. -/
def GoType.elem : GoType → Option GoType
  | .mk _ _ e => e

/-- A type that is neither an interface nor a slice and takes values of its own type
only, such as `int` or `*service.Message`. -/
def GoType.concrete (name : String) : GoType :=
  .mk name (fun v => v = name) none

/-- The slice type `[]e`. -/
def GoType.sliceOf (e : GoType) : GoType :=
  .mk ("[]" ++ e.name) (fun v => v = "[]" ++ e.name) (some e)

/-- A `reflect.Value`: a value of a signed integer kind (`int`, `int64`, ...), a slice,
or a value of another kind, whose content `Exec` never inspects; each with the name of
its type. -/
inductive GoValue where
  | int (typ : String) (n : Int)
  | slice (typ : String) (elems : List GoValue)
  | other (typ : String)

/-- The name of the type of a value. -/
def GoValue.typ : GoValue → String
  | .int t _ => t
  | .slice t _ => t
  | .other t => t

/-- A `reflect.Method`: name, export status, whether `method.Type` is variadic, its
input types (receiver first), its output types and the function `Func` (`none`: the body
panics). The values `Func` returns carry the output types. -/
structure Method where
  Name : String
  IsExported : Bool
  IsVariadic : Bool
  In : List GoType
  Out : List GoType
  Func : List GoValue → Option (List GoValue)

/-- The struct `MethodType`. -/
structure MethodType where
  Method : Method
  Args : GoType
  Result : GoType

/-- The struct `Service`: `typ` is given by the methods `t.Method(i)` enumerates. -/
structure Service where
  typ : List Method
  self : GoValue
  Method : String → Option MethodType

/-- The method `Service.registerMethods`. -/
def registerMethods (s : Service) : Service :=
  s.typ.foldl
    (fun s method =>
      if !method.IsExported then s
      else if 2 ≠ method.In.length ∨ 1 ≠ method.Out.length then s
      else
        match method.In[0]?, method.Out[0]? with
        | some a, some o =>
          { s with
            Method := fun k =>
              if k = method.Name then some { Method := method, Args := a, Result := o }
              else s.Method k }
        | _, _ => s)
    s

/-- The constructor `NewService`; `typ` is the method set of the type of `v`. -/
def NewService (v : GoValue) (typ : List Method) : Service :=
  registerMethods { self := v, typ := typ, Method := fun _ => none }

/-- The library call `reflect.Value.Call` on `method.Func`. With `n` the number of
non-variadic inputs it panics (`none`) on too few arguments, on too many for a function
that is not variadic, or on one of the first `n` arguments that is not assignable to its
parameter; for a variadic function the remaining arguments must be assignable to the
element type of the last input and are packed into one slice. Only then the function
runs. -/
def reflectCall (m : Method) (args : List GoValue) : Option (List GoValue) :=
  let n := if m.IsVariadic then m.In.length - 1 else m.In.length
  if args.length < n then none
  else if !m.IsVariadic ∧ args.length > n then none
  else if !((args.take n).zip m.In).all (fun p => p.2.assignableFrom p.1.typ) then none
  else if m.IsVariadic then
    match m.In[n]? with
    | none => none
    | some last =>
      match last.elem with
      | none => none
      | some elem =>
        if (args.drop n).all (fun x => elem.assignableFrom x.typ) then
          m.Func (args.take n ++ [.slice last.name (args.drop n)])
        else none
  else m.Func args

/-- What a call of `Exec` hands back: a nil error, a non-nil error, or a panic. -/
inductive ExecResult where
  | ok
  | error (msg : String)
  | fault
  deriving DecidableEq, Repr

/-- The method `Service.Exec`: the message after the call and the outcome. `res[0]`
panics on an empty result list and `res[0].Int()` on a value that is not of a signed
integer kind. -/
def Exec (s : Service) (msg : Message) : Message × ExecResult :=
  let name := msg.MethodName
  match s.Method name with
  | none => (msg, .error ("[Service] Can't find method: " ++ name))
  | some v =>
    match reflectCall v.Method [s.self, .int "int" msg.Args] with
    | none => (msg, .fault)
    | some res =>
      match res with
      | .int _ n :: _ => ({ msg with Result := n }, .ok)
      | _ => (msg, .fault)

/-- The multiplication of two `int`s, wrapping at 64 bits. -/
def mulInt (a b : Int) : Int :=
  (a * b + 2 ^ 63) % 2 ^ 64 - 2 ^ 63

/-- The method set of `*Service` as `reflect` enumerates it: the exported methods in name
order. `Exec` takes a `*Message`; its body is never entered through `Exec` itself, which
passes an `int`, and the value model carries no heap, so the entry only reports an
`error`-typed result. -/
def serviceMethods : List Method :=
  [ { Name := "Exec", IsExported := true, IsVariadic := false,
      In := [.concrete "*service.Service", .concrete "*service.Message"],
      Out := [.mk "error" (fun v => v = "error") none],
      Func := fun _ => some [.other "error"] },
    { Name := "Square", IsExported := true, IsVariadic := false,
      In := [.concrete "*service.Service", .concrete "int"],
      Out := [.concrete "int"],
      Func := fun args =>
        match args with
        | [_, .int _ a] => some [.int "int" (mulInt a a)]
        | _ => none } ]

/-- The service of `main.go`: `NewService(&svc)`. -/
def mainService : Service :=
  NewService (.other "*service.Service") serviceMethods

/-- The type against which `Call` checks the `int` of a call with the two arguments
receiver and `int`: the second input type, or the element type of the last input when
the method is variadic and has at most two inputs. -/
def intParam (m : Method) : Option GoType :=
  if m.IsVariadic ∧ m.In.length ≤ 2 then
    match m.In[m.In.length - 1]? with
    | some last => last.elem
    | none => none
  else m.In[1]?

/-- A method set with the one variadic method `func (t *T) Var(xs ...int) int`, which
returns the number of its arguments. -/
def variadicMethods : List Method :=
  [ { Name := "Var", IsExported := true, IsVariadic := true,
      In := [.concrete "*T", .sliceOf (.concrete "int")],
      Out := [.concrete "int"],
      Func := fun args =>
        match args with
        | [_, .slice _ xs] => some [.int "int" xs.length]
        | _ => none } ]

/-- The entries listed under `name`; none when `name` is not a key. -/
def entries (r : Registry) (name : String) : List ServerItem :=
  (r.servers name).getD []

/-- The sequence of (name, address) pairs recorded under a key, if the key exists. -/
def pairsOf (r : Registry) (name : String) : Option (List (String × String)) :=
  (r.servers name).map (List.map (fun it => (it.Name, it.Addr)))

/-- The registry states reachable from `NewRegistry` by `Register`, `Get` and
`heartbeat` steps, with any arguments, clock values, random draws and probe outcomes. -/
inductive Reachable : Registry → Prop where
  | init (addr : String) (timeout : Int) : Reachable (NewRegistry addr timeout)
  | register {r : Registry} (name addr : String) (now : Int) :
      Reachable r → Reachable (Register r name addr now)
  | get {r : Registry} (name : String) (mode : Int) (rnd : Nat) :
      Reachable r → Reachable (Get r name mode rnd).1
  | heartbeat {r : Registry} (reachable : String → Bool) (now : Int) :
      Reachable r → Reachable (heartbeat reachable now r)

/-- The state invariant: every key has a non-empty list with pairwise distinct
addresses. -/
def Inv (r : Registry) : Prop :=
  ∀ name items, r.servers name = some items →
    items ≠ [] ∧ (items.map (fun it => it.Addr)).Nodup

/-- An entry survives a sweep when its address answers and it is not stale. -/
def live (reachable : String → Bool) (now timeout : Int) (it : ServerItem) : Bool :=
  reachable it.Addr && !decide (now > it.Time + timeout)

/-- Consecutive `Register` calls of one (name, addr) pair at the clock values `ts`. -/
def registerMany (r : Registry) (name addr : String) (ts : List Int) : Registry :=
  ts.foldl (fun acc t => Register acc name addr t) r

/-- Round-robin `Get` calls for the given names one after the other: the final state and
the results in call order. -/
def robinSeq : Registry → List String → Registry × List GetResult
  | r, [] => (r, [])
  | r, name :: rest =>
    let step := Get r name RobinSelect 0
    let run := robinSeq step.1 rest
    (run.1, step.2 :: run.2)

/-- A registry state whose cursor holds the largest `int` while `s` lists three
entries. -/
def maxCursorRegistry : Registry :=
  { addr := "127.0.0.1:9999",
    servers := fun k =>
      if k = "s" then
        some [{ Name := "s", Addr := "a", Time := 0 }, { Name := "s", Addr := "b", Time := 0 },
          { Name := "s", Addr := "c", Time := 0 }]
      else none,
    timeout := 30,
    mode := RobinSelect,
    index := 2 ^ 63 - 1 }

/-- The registry of the starvation scenario: `A` lists `a0, a1` and `B` lists `b0`. -/
def starveRegistry : Registry :=
  Register (Register (Register (NewRegistry "127.0.0.1:9999" 30) "A" "a0" 1) "A" "a1" 2) "B" "b0" 3

/-- The names of `n` further rounds of the alternation: `B`, `A`, `B`, `A`, ... -/
def alternation : Nat → List String
  | 0 => []
  | n + 1 => "B" :: "A" :: alternation n

/-- The results of `n` rounds in which `B` answers `b0` and `A` answers `a1`. -/
def starvedResults : Nat → List GetResult
  | 0 => []
  | n + 1 => .ok "b0" :: .ok "a1" :: starvedResults n

/-- The `Register` calls `(name, addr, now)` of `calls` in order. -/
def registerAll (r : Registry) (calls : List (String × String × Int)) : Registry :=
  calls.foldl (fun acc c => Register acc c.1 c.2.1 c.2.2) r

/-- The answer expected of the `j`-th round-robin call on the list `items`: the address
at position `j mod k`. -/
def robinAt (items : List ServerItem) (j : Nat) : GetResult :=
  match items[j % items.length]? with
  | some item => .ok item.Addr
  | none => .fault

/-- The query of `GET /server?name=<name>&mode=<mode>`. -/
def getRequest (name mode : String) : Request :=
  { Method := "GET",
    query := fun k => if k = "name" then name else if k = "mode" then mode else "",
    body := none }

/-- How many of the `N` consecutive call numbers `s, s + 1, ...` are congruent to `idx`
modulo `k`. -/
def hits (k idx s N : Nat) : Nat :=
  (List.range' s N).countP (fun j => decide (j % k = idx))

/-! ## Lemmas on the registry -/

theorem registerScan_foldl (s : List ServerItem) (addr : String) (b : Bool) :
    s.foldl (fun exist server => if server.Addr = addr then true else exist) b
      = (b || s.any (fun it => decide (it.Addr = addr))) := by
  induction s generalizing b with
  | nil => simp
  | cons x xs ih =>
    simp only [List.foldl_cons, List.any_cons]
    rw [ih]
    by_cases hx : x.Addr = addr <;> simp [hx]

theorem registerScan_eq (s : List ServerItem) (addr : String) (now : Int) :
    registerScan s addr now = s.any (fun it => decide (it.Addr = addr)) := by
  unfold registerScan
  simpa using registerScan_foldl s addr false

theorem registerScan_true_iff (s : List ServerItem) (addr : String) (now : Int) :
    registerScan s addr now = true ↔ addr ∈ s.map (fun it => it.Addr) := by
  rw [registerScan_eq]
  simp

theorem sweepItems_foldl (reachable : String → Bool) (now timeout : Int)
    (items acc : List ServerItem) :
    items.foldl
        (fun newItem item =>
          if !reachable item.Addr then newItem
          else if now > item.Time + timeout then newItem
          else newItem ++ [{ item with Time := now }])
        acc
      = acc ++ (items.filter (live reachable now timeout)).map
          (fun it => { it with Time := now }) := by
  induction items generalizing acc with
  | nil => simp
  | cons x xs ih =>
    simp only [List.foldl_cons]
    rw [ih]
    by_cases h1 : reachable x.Addr = true
    · by_cases h2 : now > x.Time + timeout
      · simp [live, h1, h2]
      · simp [live, h1, h2]
    · simp [live, h1]

theorem sweepItems_eq (reachable : String → Bool) (now timeout : Int)
    (items : List ServerItem) :
    sweepItems reachable now timeout items
      = (items.filter (live reachable now timeout)).map (fun it => { it with Time := now }) := by
  unfold sweepItems
  simpa using sweepItems_foldl reachable now timeout items []

theorem heartbeat_servers (reachable : String → Bool) (now : Int) (r : Registry)
    (name : String) :
    (heartbeat reachable now r).servers name =
      match r.servers name with
      | none => none
      | some serverItems =>
        if serverItems.length = 0 then some serverItems
        else if (sweepItems reachable now r.timeout serverItems).length = 0 then none
        else some (sweepItems reachable now r.timeout serverItems) := rfl

theorem Get_servers (r : Registry) (name : String) (mode : Int) (rnd : Nat) :
    (Get r name mode rnd).1.servers = r.servers := by
  unfold Get
  split
  · rfl
  · split_ifs
    · rfl
    · split <;> rfl
    · rfl
    · dsimp only
      split_ifs
      · rfl
      · split <;> rfl
    · rfl

theorem lt_maxInt (n : Nat) (a : Int) (h : a < 2 ^ 63 - 1) : a < maxInt n := by
  unfold maxInt
  omega

theorem lt_maxInt_of_lt_length (n : Nat) (a : Int) (h : a < (n : Int)) : a < maxInt n := by
  unfold maxInt
  omega

theorem addInt_one (M a : Int) (h0 : -1 ≤ a) (h1 : a < M) : addInt M a 1 = a + 1 := by
  unfold addInt
  have hlt : a + 1 + (M + 1) < 2 * (M + 1) := by omega
  have hnn : 0 ≤ a + 1 + (M + 1) := by omega
  rw [Int.emod_eq_of_lt hnn hlt]
  omega

theorem Get_robin (r : Registry) (name : String) (items : List ServerItem) (rnd : Nat)
    (h : r.servers name = some items) (hk : 1 ≤ items.length) (hc : -1 ≤ r.index)
    (hmax : r.index < maxInt items.length) :
    ∃ item, items[((r.index + 1) % (items.length : Int)).toNat]? = some item ∧
      Get r name RobinSelect rnd
        = ({ r with index := (r.index + 1) % (items.length : Int) }, .ok item.Addr) := by
  have hpos : (0 : Int) < (items.length : Int) := by omega
  have hnn : 0 ≤ r.index + 1 := by omega
  have hadd : addInt (maxInt items.length) r.index 1 = r.index + 1 :=
    addInt_one _ _ hc hmax
  have htm : Int.tmod (r.index + 1) (items.length : Int) = (r.index + 1) % (items.length : Int) :=
    Int.tmod_eq_emod hnn (by omega)
  have h0 : 0 ≤ (r.index + 1) % (items.length : Int) := Int.emod_nonneg _ (by omega)
  have hlt : (r.index + 1) % (items.length : Int) < (items.length : Int) := Int.emod_lt_of_pos _ hpos
  have hp : ((r.index + 1) % (items.length : Int)).toNat < items.length := by omega
  refine ⟨items[((r.index + 1) % (items.length : Int)).toNat], by simp [hp], ?_⟩
  have hlen : items.length ≠ 0 := by omega
  unfold Get
  simp only [h, RobinSelect, Random, hadd, htm]
  simp [hlen, h0, hp]

theorem Register_servers (r : Registry) (name addr : String) (now : Int) (name' : String) :
    (Register r name addr now).servers name' =
      if name' = name then
        some (match r.servers name with
          | none => [{ Name := name, Addr := addr, Time := now }]
          | some s =>
            if addr ∈ s.map (fun it => it.Addr) then s
            else s ++ [{ Name := name, Addr := addr, Time := now }])
      else r.servers name' := by
  unfold Register
  cases h : r.servers name with
  | none =>
    by_cases hn : name' = name
    · simp [GoMap.set, hn]
    · simp [GoMap.set, hn]
  | some s0 =>
    by_cases hm : addr ∈ s0.map (fun it => it.Addr)
    · have hs : registerScan s0 addr now = true := (registerScan_true_iff s0 addr now).2 hm
      by_cases hn : name' = name
      · simp [hs, hn, h, hm]
      · simp [hs, hn]
    · have hs : registerScan s0 addr now = false := by
        cases hb : registerScan s0 addr now with
        | false => rfl
        | true => exact absurd ((registerScan_true_iff s0 addr now).1 hb) hm
      by_cases hn : name' = name
      · simp [hs, hn, GoMap.set, hm]
      · simp [hs, hn, GoMap.set]

theorem Register_index (r : Registry) (name addr : String) (now : Int) :
    (Register r name addr now).index = r.index := by
  unfold Register
  split
  · dsimp only
    split_ifs <;> rfl
  · rfl

theorem Register_of_mem (r : Registry) (name addr : String) (now : Int)
    (s : List ServerItem) (h : r.servers name = some s)
    (hm : addr ∈ s.map (fun it => it.Addr)) : Register r name addr now = r := by
  have hs : registerScan s addr now = true := (registerScan_true_iff s addr now).2 hm
  unfold Register
  simp [h, hs]

theorem registerMany_of_mem (r : Registry) (name addr : String) (ts : List Int)
    (s : List ServerItem) (h : r.servers name = some s)
    (hm : addr ∈ s.map (fun it => it.Addr)) : registerMany r name addr ts = r := by
  induction ts with
  | nil => rfl
  | cons t ts ih =>
    unfold registerMany at ih ⊢
    rw [List.foldl_cons, Register_of_mem r name addr t s h hm]
    exact ih

theorem Inv_NewRegistry (addr : String) (timeout : Int) : Inv (NewRegistry addr timeout) := by
  intro name items h
  simp [NewRegistry] at h

theorem Inv_Register (r : Registry) (name addr : String) (now : Int) (hr : Inv r) :
    Inv (Register r name addr now) := by
  intro name' items h
  rw [Register_servers] at h
  by_cases hn : name' = name
  · rw [if_pos hn] at h
    cases hs : r.servers name with
    | none =>
      rw [hs] at h
      simp only [Option.some.injEq] at h
      subst h
      simp
    | some s0 =>
      rw [hs] at h
      simp only [Option.some.injEq] at h
      have h0 := hr name s0 hs
      by_cases hm : addr ∈ s0.map (fun it => it.Addr)
      · rw [if_pos hm] at h
        subst h
        exact h0
      · rw [if_neg hm] at h
        subst h
        refine ⟨by simp, ?_⟩
        rw [List.map_append, List.nodup_append]
        refine ⟨h0.2, by simp, ?_⟩
        intro a ha hb
        simp only [List.map_cons, List.map_nil, List.mem_singleton] at hb
        subst hb
        exact hm ha
  · rw [if_neg hn] at h
    exact hr name' items h

theorem Inv_Get (r : Registry) (name : String) (mode : Int) (rnd : Nat) (hr : Inv r) :
    Inv (Get r name mode rnd).1 := by
  unfold Inv
  rw [Get_servers]
  exact hr

theorem Inv_heartbeat (reachable : String → Bool) (now : Int) (r : Registry) (hr : Inv r) :
    Inv (heartbeat reachable now r) := by
  intro name items h
  rw [heartbeat_servers] at h
  cases hs : r.servers name with
  | none => rw [hs] at h; simp at h
  | some s0 =>
    rw [hs] at h
    have h0 := hr name s0 hs
    have hlen : s0.length ≠ 0 := by
      intro hz
      exact h0.1 (List.length_eq_zero.mp hz)
    simp only [hlen, if_false] at h
    by_cases hz : (sweepItems reachable now r.timeout s0).length = 0
    · simp [hz] at h
    · simp only [hz, if_false, Option.some.injEq] at h
      subst h
      refine ⟨fun hnil => hz (by simp [hnil]), ?_⟩
      rw [sweepItems_eq, List.map_map]
      have hsub : ((s0.filter (live reachable now r.timeout)).map
          ((fun it : ServerItem => it.Addr) ∘ fun it => { it with Time := now }))
          = (s0.filter (live reachable now r.timeout)).map (fun it => it.Addr) := by
        apply List.map_congr_left
        intro a _
        rfl
      rw [hsub]
      exact (List.Sublist.map _ (List.filter_sublist s0)).nodup h0.2

theorem Reachable.inv {r : Registry} (h : Reachable r) : Inv r := by
  induction h with
  | init addr timeout => exact Inv_NewRegistry addr timeout
  | register name addr now _ ih => exact Inv_Register _ name addr now ih
  | get name mode rnd _ ih => exact Inv_Get _ name mode rnd ih
  | heartbeat reachable now _ ih => exact Inv_heartbeat reachable now _ ih

/-! ## Counting residues in a window of call numbers -/

theorem hits_add (k idx s N M : Nat) :
    hits k idx s (N + M) = hits k idx s N + hits k idx (s + N) M := by
  unfold hits
  rw [Nat.add_comm N M, ← List.range'_append_1, List.countP_append]

theorem hits_shift (k idx s : Nat) : hits k idx (s + 1) k = hits k idx s k := by
  have h1 : hits k idx s (k + 1)
      = (if s % k = idx then 1 else 0) + hits k idx (s + 1) k := by
    unfold hits
    rw [List.range'_succ, List.countP_cons]
    simp [Nat.add_comm]
  have h2 : hits k idx s (k + 1)
      = hits k idx s k + (if s % k = idx then 1 else 0) := by
    unfold hits
    rw [List.range'_1_concat, List.countP_append]
    simp [List.countP_cons]
  omega

theorem hits_zero_full (k idx : Nat) (hidx : idx < k) : hits k idx 0 k = 1 := by
  unfold hits
  have hcongr : (List.range' 0 k).countP (fun j => decide (j % k = idx))
      = (List.range' 0 k).countP (fun j => j == idx) := by
    apply List.countP_congr
    intro j hj
    have hjk : j < k := by
      have := List.mem_range'_1.mp hj
      omega
    simp [Nat.mod_eq_of_lt hjk]
  rw [hcongr, ← List.count_eq_countP]
  apply List.count_eq_one_of_mem (List.nodup_range' 0 k)
  exact List.mem_range'_1.mpr ⟨Nat.zero_le _, by omega⟩

theorem hits_full (k idx s : Nat) (hidx : idx < k) : hits k idx s k = 1 := by
  induction s with
  | zero => exact hits_zero_full k idx hidx
  | succ s ih => rw [hits_shift]; exact ih

theorem hits_le_one (k idx s N : Nat) (hidx : idx < k) (hN : N ≤ k) : hits k idx s N ≤ 1 := by
  have h := hits_add k idx s N (k - N)
  rw [Nat.add_sub_cancel' hN, hits_full k idx s hidx] at h
  omega

theorem hits_mul_add (k idx : Nat) (hidx : idx < k) (q r s : Nat) :
    hits k idx s (q * k + r) = q + hits k idx (s + q * k) r := by
  induction q generalizing s with
  | zero => simp
  | succ q ih =>
    have e1 : (q + 1) * k + r = k + (q * k + r) := by ring
    have e2 : s + (q + 1) * k = s + k + q * k := by ring
    rw [e1, hits_add, hits_full k idx s hidx, ih (s + k), e2]
    omega

theorem hits_floor_or_ceil (k idx s N : Nat) (hidx : idx < k) :
    hits k idx s N = N / k ∨ hits k idx s N = (N + k - 1) / k := by
  have hk : 0 < k := by omega
  have hsplit : hits k idx s N = N / k + hits k idx (s + N / k * k) (N % k) := by
    have e : N = N / k * k + N % k := by
      rw [Nat.mul_comm]; exact (Nat.div_add_mod N k).symm
    conv_lhs => rw [e]
    exact hits_mul_add k idx hidx (N / k) (N % k) s
  have hle := hits_le_one k idx (s + N / k * k) (N % k) hidx (Nat.le_of_lt (Nat.mod_lt N hk))
  by_cases hr : N % k = 0
  · left
    rw [hsplit, hr]
    simp [hits]
  · have hceil : (N + k - 1) / k = N / k + 1 := by
      have e : N + k - 1 = (N % k - 1) + k * (N / k + 1) := by
        have := Nat.div_add_mod N k
        have hmul : k * (N / k + 1) = k * (N / k) + k := by ring
        omega
      rw [e, Nat.add_mul_div_left _ _ hk, Nat.div_eq_of_lt (by have := Nat.mod_lt N hk; omega)]
      omega
    rw [hceil, hsplit]
    omega

/-! ## Repeated round-robin discovery of one name -/

theorem servers_of_entries_ne_nil (r : Registry) (name : String) (h : entries r name ≠ []) :
    r.servers name = some (entries r name) := by
  unfold entries at h ⊢
  cases hs : r.servers name with
  | none => rw [hs] at h; simp at h
  | some l => simp

theorem Register_entries (r : Registry) (name addr : String) (now : Int) (name' : String) :
    entries (Register r name addr now) name' =
      if name' = name then
        (if addr ∈ (entries r name).map (fun it => it.Addr) then entries r name
          else entries r name ++ [{ Name := name, Addr := addr, Time := now }])
      else entries r name' := by
  unfold entries
  rw [Register_servers]
  by_cases hn : name' = name
  · simp only [hn, if_true]
    cases hs : r.servers name with
    | none => simp
    | some s0 =>
      by_cases hm : addr ∈ s0.map (fun it => it.Addr)
      · simp only [Option.getD_some, if_pos hm]
      · simp only [Option.getD_some, if_neg hm]
  · simp only [hn, if_false]

theorem registerAll_entries (name : String) (calls : List (String × String × Int)) :
    ∀ r : Registry,
      ((entries r name).map (fun it => it.Addr) ++
        (calls.filter (fun c => decide (c.1 = name))).map (fun c => c.2.1)).Nodup →
      (entries (registerAll r calls) name).map (fun it => it.Addr)
        = (entries r name).map (fun it => it.Addr) ++
          (calls.filter (fun c => decide (c.1 = name))).map (fun c => c.2.1) ∧
      (registerAll r calls).index = r.index := by
  induction calls with
  | nil => intro r _; simp [registerAll]
  | cons c cs ih =>
    intro r hnd
    have hstep : registerAll r (c :: cs) = registerAll (Register r c.1 c.2.1 c.2.2) cs := rfl
    rw [hstep]
    by_cases hc : c.1 = name
    · have hfilter : ((c :: cs).filter (fun c => decide (c.1 = name))).map (fun c => c.2.1)
          = c.2.1 :: (cs.filter (fun c => decide (c.1 = name))).map (fun c => c.2.1) := by
        simp [List.filter_cons, hc]
      rw [hfilter] at hnd ⊢
      have hnotin : c.2.1 ∉ (entries r name).map (fun it => it.Addr) := by
        intro hin
        have := (List.nodup_append.mp hnd).2.2
        exact this hin (List.mem_cons_self _ _)
      have hent : (entries (Register r c.1 c.2.1 c.2.2) name).map (fun it => it.Addr)
          = (entries r name).map (fun it => it.Addr) ++ [c.2.1] := by
        rw [Register_entries, hc, if_pos rfl, if_neg hnotin]
        simp
      have hnd' : ((entries (Register r c.1 c.2.1 c.2.2) name).map (fun it => it.Addr) ++
          (cs.filter (fun c => decide (c.1 = name))).map (fun c => c.2.1)).Nodup := by
        rw [hent, List.append_assoc]
        exact hnd
      obtain ⟨h1, h2⟩ := ih _ hnd'
      refine ⟨?_, ?_⟩
      · rw [h1, hent, List.append_assoc]
        rfl
      · rw [h2, Register_index]
    · have hfilter : ((c :: cs).filter (fun c => decide (c.1 = name)))
          = cs.filter (fun c => decide (c.1 = name)) := by
        simp [List.filter_cons, hc]
      rw [hfilter] at hnd ⊢
      have hent : entries (Register r c.1 c.2.1 c.2.2) name = entries r name := by
        rw [Register_entries, if_neg (fun h => hc h.symm)]
      have hnd' : ((entries (Register r c.1 c.2.1 c.2.2) name).map (fun it => it.Addr) ++
          (cs.filter (fun c => decide (c.1 = name))).map (fun c => c.2.1)).Nodup := by
        rw [hent]
        exact hnd
      obtain ⟨h1, h2⟩ := ih _ hnd'
      refine ⟨?_, ?_⟩
      · rw [h1, hent]
      · rw [h2, Register_index]

theorem robinSeq_replicate (name : String) (items : List ServerItem) (hk : 1 ≤ items.length) :
    ∀ (n : Nat) (r : Registry) (m : Nat),
      r.servers name = some items → -1 ≤ r.index → r.index < (items.length : Int) →
      (r.index + 1) % (items.length : Int) = ((m % items.length : Nat) : Int) →
      (robinSeq r (List.replicate n name)).2 = (List.range' m n).map (robinAt items) := by
  intro n
  induction n with
  | zero => intro r m _ _ _ _; rfl
  | succ n ih =>
    intro r m hs hc hlt hm
    obtain ⟨item, hget, heq⟩ := Get_robin r name items 0 hs hk hc
      (lt_maxInt_of_lt_length _ _ hlt)
    rw [hm] at hget
    simp only [Int.toNat_ofNat] at hget
    have hat : robinAt items m = .ok item.Addr := by
      unfold robinAt
      rw [hget]
    have hs1 : (Get r name RobinSelect 0).1.servers name = some items := by
      rw [Get_servers]; exact hs
    have hi1 : (Get r name RobinSelect 0).1.index = ((m % items.length : Nat) : Int) := by
      rw [heq]; exact hm
    have hc1 : -1 ≤ (Get r name RobinSelect 0).1.index := by
      rw [hi1]; omega
    have hlt1 : (Get r name RobinSelect 0).1.index < (items.length : Int) := by
      rw [hi1]
      exact_mod_cast Nat.mod_lt m (by omega)
    have hm1 : ((Get r name RobinSelect 0).1.index + 1) % (items.length : Int)
        = (((m + 1) % items.length : Nat) : Int) := by
      rw [hi1]
      have := congrArg (Nat.cast : ℕ → ℤ) (Nat.mod_add_mod m items.length 1)
      push_cast at this ⊢
      exact this
    have hrec := ih _ (m + 1) hs1 hc1 hlt1 hm1
    have hres : (Get r name RobinSelect 0).2 = .ok item.Addr := by rw [heq]
    show (robinSeq r (name :: List.replicate n name)).2 = _
    simp only [robinSeq]
    rw [hrec, hres, List.range'_succ, List.map_cons, hat]

theorem robinSeq_servers (names : List String) :
    ∀ r : Registry, (robinSeq r names).1.servers = r.servers := by
  induction names with
  | nil => intro r; rfl
  | cons name rest ih =>
    intro r
    show (robinSeq (Get r name RobinSelect 0).1 rest).1.servers = r.servers
    rw [ih, Get_servers]

theorem robinAt_eq_ok (items : List ServerItem) (j : Nat) (hk : 1 ≤ items.length) :
    some (robinAt items j)
      = ((items.map (fun it => it.Addr))[j % (items.map (fun it => it.Addr)).length]?).map
          GetResult.ok := by
  have hlt : j % items.length < items.length := Nat.mod_lt _ (by omega)
  unfold robinAt
  simp [hlt]

theorem heartbeat_entries (r : Registry) (reachable : String → Bool) (now : Int)
    (name : String) :
    entries (heartbeat reachable now r) name
      = ((entries r name).filter (live reachable now r.timeout)).map
          (fun it => { it with Time := now }) := by
  unfold entries
  rw [heartbeat_servers]
  cases hs : r.servers name with
  | none => simp
  | some s0 =>
    by_cases hz : s0.length = 0
    · have : s0 = [] := List.length_eq_zero.mp hz
      subst this
      simp
    · simp only [hz, if_false]
      by_cases hz2 : (sweepItems reachable now r.timeout s0).length = 0
      · have hnil : sweepItems reachable now r.timeout s0 = [] := List.length_eq_zero.mp hz2
        simp only [hz2, if_true, Option.getD_none, Option.getD_some]
        rw [← sweepItems_eq, hnil]
      · simp only [hz2, if_false, Option.getD_some]
        exact sweepItems_eq reachable now r.timeout s0

/-! ## The registry claims -/

/-- C1: `Register` is idempotent on a (name, addr) pair. In every reachable state, after
one or more consecutive `Register(name, addr)` calls the list of `name` holds exactly one
entry with address `addr`, and a further `Register(name, addr)` leaves the (name, address)
pairs of every service unchanged. The registrations of the test leave `server1` with
`10.50.8.10, 10.10.10.100` and `server2` with `10.10.10.11`. -/
theorem register_idempotent (r : Registry) (hr : Reachable r) (name addr : String)
    (t : Int) (ts : List Int) (t1 t2 t3 t4 : Int) :
    (∃ items, (registerMany (Register r name addr t) name addr ts).servers name = some items ∧
      (items.map (fun it => it.Addr)).count addr = 1) ∧
    (∀ (t' : Int) (name' : String),
      pairsOf (Register (registerMany (Register r name addr t) name addr ts) name addr t') name'
        = pairsOf (registerMany (Register r name addr t) name addr ts) name') ∧
    pairsOf (testRegistry t1 t2 t3 t4) "server1"
      = some [("server1", "10.50.8.10"), ("server1", "10.10.10.100")] ∧
    pairsOf (testRegistry t1 t2 t3 t4) "server2" = some [("server2", "10.10.10.11")] := by
  have hinv : Inv (Register r name addr t) := Inv_Register r name addr t hr.inv
  obtain ⟨s1, hs1, hmem⟩ : ∃ s1, (Register r name addr t).servers name = some s1 ∧
      addr ∈ s1.map (fun it => it.Addr) := by
    rw [Register_servers, if_pos rfl]
    cases hs : r.servers name with
    | none => exact ⟨_, rfl, by simp⟩
    | some s0 =>
      by_cases hm : addr ∈ s0.map (fun it => it.Addr)
      · exact ⟨s0, by simp [hm], hm⟩
      · exact ⟨_, rfl, by simp [hm]⟩
  have hmany : registerMany (Register r name addr t) name addr ts = Register r name addr t :=
    registerMany_of_mem _ name addr ts s1 hs1 hmem
  rw [hmany]
  refine ⟨⟨s1, hs1, ?_⟩, ?_, ?_, ?_⟩
  · exact List.count_eq_one_of_mem (hinv name s1 hs1).2 hmem
  · intro t' name'
    rw [Register_of_mem _ name addr t' s1 hs1 hmem]
  · rfl
  · rfl

/-- C1 at the first address of the test, registered three times in a row. -/
theorem register_idempotent_witness :
    Reachable (NewRegistry "192.18.10.10:30001" 1000000000) ∧
    ∃ items,
      (registerMany (Register (NewRegistry "192.18.10.10:30001" 1000000000)
          "server1" "10.50.8.10" 1) "server1" "10.50.8.10" [2, 3]).servers "server1"
        = some items ∧
      (items.map (fun it => it.Addr)).count "10.50.8.10" = 1 :=
  ⟨Reachable.init _ _,
    (register_idempotent _ (Reachable.init _ _) "server1" "10.50.8.10" 1 [2, 3] 1 2 3 4).1⟩

/-- C3 (counterexample): the state `maxCursorRegistry` has only non-empty lists and a
cursor of at least `-1`, `s` is a key and `RobinSelect` a valid mode, yet
`Get("s", RobinSelect)` returns neither an error nor an address: `index + 1` wraps to the
smallest `int`, the remainder by 3 is `-2`, and the slice access panics. -/
theorem get_panics_at_max_cursor :
    (∀ n items, maxCursorRegistry.servers n = some items → items ≠ []) ∧
    -1 ≤ maxCursorRegistry.index ∧
    (maxCursorRegistry.servers "s").isSome = true ∧
    (Get maxCursorRegistry "s" RobinSelect 0).2 = .fault ∧
    ¬ ∃ addr, (Get maxCursorRegistry "s" RobinSelect 0).2 = .ok addr := by
  have hf : (Get maxCursorRegistry "s" RobinSelect 0).2 = .fault := by decide
  refine ⟨?_, by decide, by decide, hf, ?_⟩
  · intro n items h
    unfold maxCursorRegistry at h
    by_cases hn : n = "s"
    · simp only [hn, if_true, Option.some.injEq] at h
      subst h
      simp
    · simp [hn] at h
  · rintro ⟨addr, ha⟩
    rw [hf] at ha
    exact GetResult.noConfusion ha

/-- C3 (amended): in a state whose keys all have non-empty lists and whose cursor is at
least `-1` and below the largest `int`, `Get` returns an error exactly when the name is
not a key (the not-found error, whatever the mode) or the mode is neither `Random` nor
`RobinSelect` (the invalid-mode error); otherwise it returns the address of an entry
listed under the name, and the directory is left as it was. -/
theorem get_fails_exactly (r : Registry) (name : String) (mode : Int) (rnd : Nat)
    (hne : ∀ n items, r.servers n = some items → items ≠ []) (hidx : -1 ≤ r.index)
    (hmax : r.index < 2 ^ 63 - 1) :
    ((∃ msg, (Get r name mode rnd).2 = .error msg) ↔
      (r.servers name = none ∨ (mode ≠ Random ∧ mode ≠ RobinSelect))) ∧
    (r.servers name = none →
      (Get r name mode rnd).2
        = .error ("[Registry] No server data matching the name of " ++ name)) ∧
    (r.servers name ≠ none → mode ≠ Random → mode ≠ RobinSelect →
      (Get r name mode rnd).2 = .error "[Registry] No mode type meets the mode") ∧
    (∀ items, r.servers name = some items → (mode = Random ∨ mode = RobinSelect) →
      ∃ it ∈ items, (Get r name mode rnd).2 = .ok it.Addr) ∧
    (Get r name mode rnd).1.servers = r.servers := by
  have hnone : r.servers name = none →
      (Get r name mode rnd).2
        = .error ("[Registry] No server data matching the name of " ++ name) := by
    intro h
    unfold Get
    simp [h]
  have hbad : r.servers name ≠ none → mode ≠ Random → mode ≠ RobinSelect →
      (Get r name mode rnd).2 = .error "[Registry] No mode type meets the mode" := by
    intro h h0 h1
    cases hs : r.servers name with
    | none => exact absurd hs h
    | some items =>
      unfold Get
      simp [hs, h0, h1]
  have hok : ∀ items, r.servers name = some items → (mode = Random ∨ mode = RobinSelect) →
      ∃ it ∈ items, (Get r name mode rnd).2 = .ok it.Addr := by
    intro items hs hm
    have hnil := hne name items hs
    have hlen : items.length ≠ 0 := fun hz => hnil (List.length_eq_zero.mp hz)
    rcases hm with hm | hm
    · subst hm
      have hlt : rnd % items.length < items.length := Nat.mod_lt _ (by omega)
      refine ⟨items[rnd % items.length], List.getElem_mem _, ?_⟩
      unfold Get
      simp [hs, hlen, hlt]
    · subst hm
      obtain ⟨item, hget, heq⟩ := Get_robin r name items rnd hs (by omega) hidx
        (lt_maxInt _ _ hmax)
      refine ⟨item, List.getElem?_mem hget, ?_⟩
      rw [heq]
  refine ⟨⟨?_, ?_⟩, hnone, hbad, hok, Get_servers r name mode rnd⟩
  · rintro ⟨msg, hmsg⟩
    by_contra hcon
    push_neg at hcon
    obtain ⟨hsome, hmode⟩ := hcon
    cases hs : r.servers name with
    | none => exact hsome hs
    | some items =>
      have hm : mode = Random ∨ mode = RobinSelect := by
        by_cases h0 : mode = Random
        · exact Or.inl h0
        · exact Or.inr (hmode h0)
      obtain ⟨it, _, hit⟩ := hok items hs hm
      rw [hit] at hmsg
      exact GetResult.noConfusion hmsg
  · rintro (h | ⟨h0, h1⟩)
    · exact ⟨_, hnone h⟩
    · by_cases hs : r.servers name = none
      · exact ⟨_, hnone hs⟩
      · exact ⟨_, hbad hs h0 h1⟩

/-- C3 (amended) at the registry of the test: `Get("name", 0)` returns the not-found
error. -/
theorem get_fails_exactly_witness :
    (∀ n items, (testRegistry 1 2 3 4).servers n = some items → items ≠ []) ∧
    -1 ≤ (testRegistry 1 2 3 4).index ∧
    (testRegistry 1 2 3 4).index < 2 ^ 63 - 1 ∧
    (Get (testRegistry 1 2 3 4) "name" 0 0).2
      = .error ("[Registry] No server data matching the name of " ++ "name") :=
  have hr : Inv (testRegistry 1 2 3 4) :=
    Inv_Register _ _ _ _ (Inv_Register _ _ _ _ (Inv_Register _ _ _ _
      (Inv_Register _ _ _ _ (Inv_NewRegistry _ _))))
  ⟨fun n items h => (hr n items h).1, by decide, by decide,
    (get_fails_exactly (testRegistry 1 2 3 4) "name" 0 0
      (fun n items h => (hr n items h).1) (by decide) (by decide)).2.1 (by decide)⟩

/-- C4: the health sweep keeps exactly the live entries. With the probe a predicate
`reachable` and one clock value `now`, after `heartbeat` the entries under any name are
the prior entries that are reachable and for which `now` is not after `Time + timeout`,
in their prior order and each with `Time` set to `now`; an entry with
`now = Time + timeout` survives, and no key is added. -/
theorem heartbeat_keeps_live (r : Registry) (reachable : String → Bool) (now : Int)
    (name : String) :
    entries (heartbeat reachable now r) name
      = ((entries r name).filter
          (fun it => reachable it.Addr && !decide (now > it.Time + r.timeout))).map
          (fun it => { it with Time := now }) ∧
    (∀ it ∈ entries r name, reachable it.Addr = true → now = it.Time + r.timeout →
      { it with Time := now } ∈ entries (heartbeat reachable now r) name) ∧
    (r.servers name = none → (heartbeat reachable now r).servers name = none) := by
  have hmain : entries (heartbeat reachable now r) name
      = ((entries r name).filter (live reachable now r.timeout)).map
          (fun it => { it with Time := now }) := heartbeat_entries r reachable now name
  refine ⟨hmain, ?_, ?_⟩
  · intro it hit hre hnow
    rw [hmain]
    refine List.mem_map.mpr ⟨it, List.mem_filter.mpr ⟨hit, ?_⟩, rfl⟩
    simp [live, hre, hnow]
  · intro hs
    rw [heartbeat_servers, hs]

/-- C5 (evaluation of the code): a second `Register("s", "a")` at clock value 2 leaves the
stored entry with `Time = 1`, the clock value of the first registration. -/
theorem register_again_keeps_time :
    (Register (Register (NewRegistry "127.0.0.1:9999" 30) "s" "a" 1) "s" "a" 2).servers "s"
      = some [{ Name := "s", Addr := "a", Time := 1 }] := by
  decide

/-- C9: no service name is ever listed with an empty entry list. In every state reachable
from `NewRegistry` by `Register`, `Get` and `heartbeat` steps each key maps to a non-empty
list, and a name none of whose entries survives a sweep is not a key afterwards. -/
theorem no_empty_entry_list (r : Registry) (hr : Reachable r) :
    (∀ name items, r.servers name = some items → items ≠ []) ∧
    (∀ (reachable : String → Bool) (now : Int) (name : String),
      (∀ it ∈ entries r name,
        (reachable it.Addr && !decide (now > it.Time + r.timeout)) = false) →
      (heartbeat reachable now r).servers name = none) := by
  refine ⟨fun name items h => (hr.inv name items h).1, ?_⟩
  intro reachable now name hdead
  have hI := (Reachable.heartbeat reachable now hr).inv
  cases hs : (heartbeat reachable now r).servers name with
  | none => rfl
  | some items =>
    exfalso
    have hne := (hI name items hs).1
    have hent : entries (heartbeat reachable now r) name = items := by
      simp [entries, hs]
    rw [heartbeat_entries r reachable now name] at hent
    apply hne
    rw [← hent]
    simp only [List.map_eq_nil_iff, List.filter_eq_nil_iff]
    intro it hit
    have := hdead it hit
    simp only [live]
    simp [this]

/-- C9 at the state after one registration and one sweep. -/
theorem no_empty_entry_list_witness :
    Reachable (heartbeat (fun _ => true) 5 (Register (NewRegistry "127.0.0.1:9999" 30) "s" "a" 1)) ∧
    ∀ name items,
      (heartbeat (fun _ => true) 5
        (Register (NewRegistry "127.0.0.1:9999" 30) "s" "a" 1)).servers name = some items →
      items ≠ [] :=
  ⟨Reachable.heartbeat _ _ (Reachable.register _ _ _ (Reachable.init _ _)),
    (no_empty_entry_list _
      (Reachable.heartbeat _ _ (Reachable.register _ _ _ (Reachable.init _ _)))).1⟩

/-- C2: round-robin discovery is cyclic in insertion order. On a registry built from
`NewRegistry` by `Register` calls whose calls for `name` register the `k ≥ 1` distinct
addresses `as` in that order, the `i`-th of `n` consecutive `Get(name, RobinSelect)`
calls returns `as[i mod k]`; and among any `N` consecutive such calls (those numbered
`s` to `s + N - 1`) every address of `as` is returned `floor(N / k)` or `ceil(N / k)`
times. -/
theorem round_robin_cyclic (addr0 : String) (timeout : Int)
    (calls : List (String × String × Int)) (name : String) (as : List String)
    (hcalls : (calls.filter (fun c => decide (c.1 = name))).map (fun c => c.2.1) = as)
    (hnd : as.Nodup) (hk : 1 ≤ as.length) :
    (∀ n i, i < n →
      (robinSeq (registerAll (NewRegistry addr0 timeout) calls) (List.replicate n name)).2[i]?
        = (as[i % as.length]?).map GetResult.ok) ∧
    (∀ s N a, a ∈ as →
      (((robinSeq (registerAll (NewRegistry addr0 timeout) calls)
          (List.replicate (s + N) name)).2.drop s).count (.ok a) = N / as.length ∨
       ((robinSeq (registerAll (NewRegistry addr0 timeout) calls)
          (List.replicate (s + N) name)).2.drop s).count (.ok a)
          = (N + as.length - 1) / as.length)) := by
  have hent0 : entries (NewRegistry addr0 timeout) name = [] := rfl
  obtain ⟨hmap, hidx⟩ := registerAll_entries name calls (NewRegistry addr0 timeout)
    (by rw [hent0, hcalls]; simpa using hnd)
  rw [hent0, hcalls] at hmap
  simp only [List.map_nil, List.nil_append] at hmap
  have hidx' : (registerAll (NewRegistry addr0 timeout) calls).index = -1 := by
    rw [hidx]; rfl
  have hlen : (entries (registerAll (NewRegistry addr0 timeout) calls) name).length
      = as.length := by
    rw [← hmap, List.length_map]
  have hne : entries (registerAll (NewRegistry addr0 timeout) calls) name ≠ [] := by
    intro hnil
    rw [hnil] at hlen
    simp at hlen
    omega
  have hs := servers_of_entries_ne_nil _ name hne
  have hrun : ∀ n, (robinSeq (registerAll (NewRegistry addr0 timeout) calls)
      (List.replicate n name)).2
      = (List.range' 0 n).map
          (robinAt (entries (registerAll (NewRegistry addr0 timeout) calls) name)) := by
    intro n
    refine robinSeq_replicate name _ (by omega) n _ 0 hs (by omega) (by omega) ?_
    rw [hidx']
    simp
  have hat : ∀ j, some (robinAt (entries (registerAll (NewRegistry addr0 timeout) calls) name) j)
      = (as[j % as.length]?).map GetResult.ok := by
    intro j
    rw [robinAt_eq_ok _ j (by omega), hmap]
  refine ⟨?_, ?_⟩
  · intro n i hi
    rw [hrun n, List.getElem?_map, List.getElem?_range' 0 1 hi, ← hat]
    simp
  · intro s N a ha
    have hdrop : ((List.range' 0 (s + N)).map
        (robinAt (entries (registerAll (NewRegistry addr0 timeout) calls) name))).drop s
        = (List.range' s N).map
          (robinAt (entries (registerAll (NewRegistry addr0 timeout) calls) name)) := by
      have happ : List.range' 0 (s + N) = List.range' 0 s ++ List.range' s N := by
        have := List.range'_append_1 0 s N
        rw [Nat.zero_add] at this
        rw [Nat.add_comm s N]
        exact this.symm
      rw [happ, List.map_append]
      apply List.drop_left'
      simp
    obtain ⟨idx, hidxlt, hidxeq⟩ := List.getElem_of_mem ha
    have hcount : ((List.range' s N).map
        (robinAt (entries (registerAll (NewRegistry addr0 timeout) calls) name))).count (.ok a)
        = hits as.length idx s N := by
      unfold hits
      rw [List.count_eq_countP, List.countP_map]
      apply List.countP_congr
      intro j _
      have hjlt : j % as.length < as.length := Nat.mod_lt _ (by omega)
      have hj := hat j
      rw [List.getElem?_eq_getElem hjlt] at hj
      simp only [Option.map_some', Option.some.injEq] at hj
      simp only [Function.comp, hj, beq_iff_eq, GetResult.ok.injEq, decide_eq_true_eq]
      rw [← hidxeq]
      exact hnd.getElem_inj_iff
    rw [hrun (s + N), hdrop, hcount]
    exact hits_floor_or_ceil as.length idx s N hidxlt

/-- C2 at a registry with `A = [a0, a1]` and `B = [b0]`. -/
theorem round_robin_cyclic_witness :
    ([("A", "a0", (1 : Int)), ("A", "a1", 2), ("B", "b0", 3)].filter
        (fun c => decide (c.1 = "A"))).map (fun c => c.2.1) = ["a0", "a1"] ∧
    ["a0", "a1"].Nodup ∧ 1 ≤ ["a0", "a1"].length ∧
    ∀ n i, i < n →
      (robinSeq (registerAll (NewRegistry "127.0.0.1:9999" 30)
          [("A", "a0", 1), ("A", "a1", 2), ("B", "b0", 3)]) (List.replicate n "A")).2[i]?
        = (["a0", "a1"][i % ["a0", "a1"].length]?).map GetResult.ok :=
  ⟨by decide, by decide, by decide,
    (round_robin_cyclic "127.0.0.1:9999" 30 [("A", "a0", 1), ("A", "a1", 2), ("B", "b0", 3)]
      "A" ["a0", "a1"] (by decide) (by decide) (by decide)).1⟩

/-- C10 (counterexample): in `maxCursorRegistry` the cursor is `c = 2^63 - 1 ≥ -1` and `s`
lists `k = 3` entries, so `(c + 1) mod k = 2`; `Get("s", RobinSelect)` does not return
the entry at position 2 and does not set the cursor to 2: it panics and leaves the
cursor at `-2`. -/
theorem robin_panics_at_max_cursor :
    maxCursorRegistry.servers "s"
      = some [{ Name := "s", Addr := "a", Time := 0 }, { Name := "s", Addr := "b", Time := 0 },
          { Name := "s", Addr := "c", Time := 0 }] ∧
    -1 ≤ maxCursorRegistry.index ∧
    (maxCursorRegistry.index + 1) % 3 = 2 ∧
    (Get maxCursorRegistry "s" RobinSelect 0).2 ≠ .ok "c" ∧
    (Get maxCursorRegistry "s" RobinSelect 0).2 = .fault ∧
    (Get maxCursorRegistry "s" RobinSelect 0).1.index = -2 := by
  refine ⟨by decide, by decide, by decide, by decide, by decide, by decide⟩

set_option maxRecDepth 4000 in
/-- C10 (amended): the round-robin cursor is shared by all service names. With cursor
`c ≥ -1` below the largest `int` and `k ≥ 1` entries under `name`,
`Get(name, RobinSelect)` returns the entry at position `(c + 1) mod k` of that list and
stores that position in the one cursor of the registry. On `A = [a0, a1]`, `B = [b0]` the
calls `A, B, A, B, A` return `a0, b0, a1, b0, a1`, and every later `Get(A)` of the
alternation returns `a1`. -/
theorem robin_cursor_shared (r : Registry) (name : String) (items : List ServerItem)
    (rnd : Nat) (h : r.servers name = some items) (hk : 1 ≤ items.length)
    (hc : -1 ≤ r.index) (hmax : r.index < 2 ^ 63 - 1) :
    (∃ item, items[((r.index + 1) % (items.length : Int)).toNat]? = some item ∧
      (Get r name RobinSelect rnd).2 = .ok item.Addr) ∧
    (Get r name RobinSelect rnd).1.index = (r.index + 1) % (items.length : Int) ∧
    (Get r name RobinSelect rnd).1.servers = r.servers ∧
    (robinSeq starveRegistry ["A", "B", "A", "B", "A"]).2
      = [.ok "a0", .ok "b0", .ok "a1", .ok "b0", .ok "a1"] ∧
    ∀ n, (robinSeq (robinSeq starveRegistry ["A", "B", "A", "B", "A"]).1 (alternation n)).2
      = starvedResults n := by
  obtain ⟨item, hget, heq⟩ := Get_robin r name items rnd h hk hc (lt_maxInt _ _ hmax)
  refine ⟨⟨item, hget, by rw [heq]⟩, by rw [heq], Get_servers r name RobinSelect rnd, by decide, ?_⟩
  have hstep : ∀ (n : Nat) (r' : Registry),
      r'.servers "A" = starveRegistry.servers "A" → r'.servers "B" = starveRegistry.servers "B" →
      r'.index = 1 → (robinSeq r' (alternation n)).2 = starvedResults n := by
    intro n
    induction n with
    | zero => intro r' _ _ _; rfl
    | succ n ih =>
      intro r' hA hB hi
      have hA0 : starveRegistry.servers "A"
          = some [{ Name := "A", Addr := "a0", Time := 1 }, { Name := "A", Addr := "a1", Time := 2 }] := by
        decide
      have hB0 : starveRegistry.servers "B" = some [{ Name := "B", Addr := "b0", Time := 3 }] := by
        decide
      obtain ⟨itB, hgB, hB1⟩ := Get_robin r' "B" _ 0 (hB.trans hB0) (by simp) (by omega)
        (lt_maxInt _ _ (by omega))
      rw [hi] at hgB hB1
      simp at hgB
      subst hgB
      have hA' : (Get r' "B" RobinSelect 0).1.servers "A" = starveRegistry.servers "A" := by
        rw [Get_servers]; exact hA
      have hB' : (Get r' "B" RobinSelect 0).1.servers "B" = starveRegistry.servers "B" := by
        rw [Get_servers]; exact hB
      have hi' : (Get r' "B" RobinSelect 0).1.index = 0 := by rw [hB1]; simp
      obtain ⟨itA, hgA, hA1⟩ := Get_robin (Get r' "B" RobinSelect 0).1 "A" _ 0 (hA'.trans hA0)
        (by simp) (by omega) (lt_maxInt _ _ (by omega))
      rw [hi'] at hgA hA1
      simp at hgA
      subst hgA
      have hA2 : (Get (Get r' "B" RobinSelect 0).1 "A" RobinSelect 0).1.servers "A"
          = starveRegistry.servers "A" := by
        rw [Get_servers]; exact hA'
      have hB2 : (Get (Get r' "B" RobinSelect 0).1 "A" RobinSelect 0).1.servers "B"
          = starveRegistry.servers "B" := by
        rw [Get_servers]; exact hB'
      have hi2 : (Get (Get r' "B" RobinSelect 0).1 "A" RobinSelect 0).1.index = 1 := by
        rw [hA1]; simp
      have hrec := ih _ hA2 hB2 hi2
      have hresB : (Get r' "B" RobinSelect 0).2 = .ok "b0" := by rw [hB1]
      have hresA : (Get (Get r' "B" RobinSelect 0).1 "A" RobinSelect 0).2 = .ok "a1" := by
        rw [hA1]
      show (robinSeq r' ("B" :: "A" :: alternation n)).2 = _
      simp only [robinSeq, starvedResults]
      rw [hrec, hresB, hresA]
  intro n
  refine hstep n _ ?_ ?_ ?_
  · rw [robinSeq_servers]
  · rw [robinSeq_servers]
  · decide

/-- C10 (amended) at the first `Get(A)` of the starvation scenario. -/
theorem robin_cursor_shared_witness :
    starveRegistry.servers "A"
      = some [{ Name := "A", Addr := "a0", Time := 1 }, { Name := "A", Addr := "a1", Time := 2 }] ∧
    1 ≤ [({ Name := "A", Addr := "a0", Time := 1 } : ServerItem),
      { Name := "A", Addr := "a1", Time := 2 }].length ∧
    -1 ≤ starveRegistry.index ∧
    starveRegistry.index < 2 ^ 63 - 1 ∧
    (Get starveRegistry "A" RobinSelect 0).1.index = (starveRegistry.index + 1) % (2 : Int) :=
  ⟨by decide, by decide, by decide, by decide,
    (robin_cursor_shared starveRegistry "A"
      [{ Name := "A", Addr := "a0", Time := 1 }, { Name := "A", Addr := "a1", Time := 2 }] 0
      (by decide) (by decide) (by decide) (by decide)).2.1⟩

/-! ## The discovery handler -/

/-- C7 (evaluation of the code): for `mode=abc` the handler writes the body
`mode must be a number` and then goes on to `Get` with mode `0`. With `s` registered at
`a` a second body with code 200 carries the address `a`; with `s` unknown a second error
body follows. -/
theorem serve_non_numeric_mode_two_bodies :
    (ServeHTTP (Register (NewRegistry "127.0.0.1:9999" 30) "s" "a" 1)
        (getRequest "s" "abc") 5 0).w
      = [{ Code := 500, Message := "mode must be a number", Data := none },
         { Code := 200, Message := "success", Data := some "a" }] ∧
    (ServeHTTP (NewRegistry "127.0.0.1:9999" 30) (getRequest "s" "abc") 5 0).w
      = [{ Code := 500, Message := "mode must be a number", Data := none },
         { Code := 500, Message := "[Registry] No server data matching the name of s",
           Data := none }] := by
  constructor <;> decide

/-! ## The dispatch table -/

/-- C6: `Exec` rejects an unknown method without touching the message. When the method
name is not a key of the table, `Exec` returns the method-not-found error, does not
fault, and the message (Result, Args, MethodName) is unchanged; `Cube` is not a key of
the table built from `*Service`. -/
theorem exec_unknown_method (s : Service) (msg : Message)
    (h : s.Method msg.MethodName = none) :
    Exec s msg = (msg, .error ("[Service] Can't find method: " ++ msg.MethodName)) ∧
    mainService.Method "Cube" = none := by
  refine ⟨?_, rfl⟩
  unfold Exec
  simp [h]

/-- C6 at the table of `*Service` and the method name `Cube`. -/
theorem exec_unknown_method_witness :
    mainService.Method "Cube" = none ∧
    Exec mainService { MethodName := "Cube", Args := 2, Result := 7 }
      = ({ MethodName := "Cube", Args := 2, Result := 7 },
          .error ("[Service] Can't find method: " ++ "Cube")) :=
  ⟨rfl,
    (exec_unknown_method mainService { MethodName := "Cube", Args := 2, Result := 7 }
      rfl).1⟩

/-- C8 (counterexample): the table built from `*Service` keeps `Exec`, whose parameter is
a `*Message`, next to `Square`; on the message `{MethodName: "Exec", Args: 2}` the call
of `Exec` panics and returns no error. -/
theorem exec_type_mismatch_no_error :
    (∃ v, mainService.Method "Exec" = some v ∧ v.Method.IsVariadic = false ∧
      v.Method.In.map GoType.name = ["*service.Service", "*service.Message"]) ∧
    (mainService.Method "Square").isSome = true ∧
    Exec mainService { MethodName := "Exec", Args := 2, Result := 0 }
      = ({ MethodName := "Exec", Args := 2, Result := 0 }, .fault) ∧
    ¬ ∃ e, (Exec mainService { MethodName := "Exec", Args := 2, Result := 0 }).2 = .error e := by
  refine ⟨⟨_, rfl, rfl, by decide⟩, by decide, by decide, ?_⟩
  rintro ⟨e, he⟩
  have h : (Exec mainService { MethodName := "Exec", Args := 2, Result := 0 }).2 = .fault := by
    decide
  rw [h] at he
  exact ExecResult.noConfusion he

/-- C8 (amended): `Exec` has no argument type check of its own and no error for a type
mismatch. When the type against which the reflective call checks the `int` argument of
the named entry (its second input, or the element type of a variadic last input) does
not accept an `int`, the call panics before the method runs, `Exec` returns no error,
and the message is left unchanged. -/
theorem exec_type_mismatch_faults (s : Service) (msg : Message) (v : MethodType) (t : GoType)
    (h : s.Method msg.MethodName = some v) (ht : intParam v.Method = some t)
    (hna : t.assignableFrom "int" = false) :
    Exec s msg = (msg, .fault) ∧
    reflectCall v.Method [s.self, .int "int" msg.Args] = none := by
  have hcall : reflectCall v.Method [s.self, .int "int" msg.Args] = none := by
    unfold intParam at ht
    unfold reflectCall
    cases hv : v.Method.IsVariadic with
    | false =>
      rw [hv] at ht
      rcases hin : v.Method.In with _ | ⟨t0, _ | ⟨t1, _ | ⟨t2, rest⟩⟩⟩
      · simp
      · simp
      · rw [hin] at ht
        simp at ht
        subst ht
        simp [GoValue.typ, hna]
      · simp
    | true =>
      rw [hv] at ht
      rcases hin : v.Method.In with _ | ⟨t0, _ | ⟨t1, _ | ⟨t2, rest⟩⟩⟩
      · rw [hin] at ht
        simp at ht
      · rw [hin] at ht
        simp at ht
        simp [ht, GoValue.typ, hna]
      · rw [hin] at ht
        simp at ht
        simp [ht, GoValue.typ, hna]
      · rw [hin] at ht
        simp at ht
        subst ht
        cases rest with
        | nil => simp [GoValue.typ, hna]
        | cons t3 rest3 => simp
  refine ⟨?_, hcall⟩
  unfold Exec
  simp only [h, hcall]

/-- C8 (amended) at the table of `*Service` and the method name `Exec`. -/
theorem exec_type_mismatch_faults_witness :
    (∃ v, mainService.Method "Exec" = some v ∧
      (intParam v.Method).map GoType.name = some "*service.Message") ∧
    (GoType.concrete "*service.Message").assignableFrom "int" = false ∧
    Exec mainService { MethodName := "Exec", Args := 2, Result := 0 }
      = ({ MethodName := "Exec", Args := 2, Result := 0 }, .fault) :=
  ⟨⟨_, rfl, rfl⟩, by decide,
    (exec_type_mismatch_faults mainService { MethodName := "Exec", Args := 2, Result := 0 }
      { Method := { Name := "Exec", IsExported := true, IsVariadic := false,
                    In := [.concrete "*service.Service", .concrete "*service.Message"],
                    Out := [.mk "error" (fun v => v = "error") none],
                    Func := fun _ => some [.other "error"] },
        Args := .concrete "*service.Service",
        Result := .mk "error" (fun v => v = "error") none }
      (.concrete "*service.Message") rfl rfl (by decide)).1⟩

/-- A retained variadic method takes the `int` of the message: for
`Var(xs ...int) int` the call packs the argument into a slice, the method runs, and
`Exec` writes its result. -/
theorem exec_variadic_int_ok :
    Exec (NewService (.other "*T") variadicMethods) { MethodName := "Var", Args := 2, Result := 0 }
      = ({ MethodName := "Var", Args := 2, Result := 1 }, .ok) := by
  decide

end GoMicro
